import Mathlib

/-!
Verification of the hotel booking operation/undo engine (`src/exam_prac.py`).

The Python aggregate `Hotel` keeps three insertion-ordered dictionaries
(`rooms`, `guests`, `bookings`), two id counters and an operation history.
Each operation object carries its constructor parameters together with the
memento fields its `execute` fills in (`_added`, `guest_id`, `booking_id`,
`_prev_status`).  We model dictionaries as insertion-ordered association
lists, `datetime.date` as `Int` (only its total order is used), and a raised
`ValueError` as an `Option Err` component of the result, returned together
with whatever state mutations happened before the raise.

Because operation instances are mutable and may be handed to `Hotel.apply`
more than once, a `World` pairs the hotel with a store of operation
instances; the history records indices into that store, exactly as the
Python history holds object references.
-/

set_option autoImplicit false

namespace HotelSpec

/-- Booking status strings of the source. -/
inductive Status where
  | booked
  | checked_in
  | checked_out
  | cancelled
deriving DecidableEq

/-- The `Room` dataclass. -/
structure Room where
  number : Int
  capacity : Int
  price_per_night : Int
deriving DecidableEq

/-- The `Guest` dataclass. -/
structure Guest where
  guest_id : Int
  name : String
deriving DecidableEq

/-- The `Booking` dataclass; dates are modelled as integers (only their order matters). -/
structure Booking where
  booking_id : Int
  guest_id : Int
  room_number : Int
  check_in_date : Int
  check_out_date : Int
  status : Status
deriving DecidableEq

/-- First value stored under a key, scanning in insertion order (`dict.get`). -/
def alookup {V : Type} : List (Int × V) → Int → Option V
  | [], _ => none
  | (k, v) :: rest, key => if k = key then some v else alookup rest key

/-- Membership test `key in dict`. -/
def acontains {V : Type} (l : List (Int × V)) (k : Int) : Bool :=
  (alookup l k).isSome

/-- Assignment `dict[k] = v`: replace in place if the key is present, else append at the end. -/
def ainsert {V : Type} : List (Int × V) → Int → V → List (Int × V)
  | [], k, v => [(k, v)]
  | (k0, v0) :: rest, k, v =>
    if k0 = k then (k, v) :: rest else (k0, v0) :: ainsert rest k v

/-- Deletion `del dict[k]`: drop the first entry with the key. -/
def aerase {V : Type} : List (Int × V) → Int → List (Int × V)
  | [], _ => []
  | (k0, v0) :: rest, k => if k0 = k then rest else (k0, v0) :: aerase rest k

/-- Assignment `booking.status = st` on the object stored under the key: in-place field update. -/
def setStatus : List (Int × Booking) → Int → Status → List (Int × Booking)
  | [], _, _ => []
  | (k0, b) :: rest, k, st =>
    if k0 = k then (k0, { b with status := st }) :: rest
    else (k0, b) :: setStatus rest k st

/-- The aggregate state of `Hotel`; `history` holds indices into the
operation store of the enclosing `World` (object references in Python). -/
structure Hotel where
  rooms : List (Int × Room)
  guests : List (Int × Guest)
  bookings : List (Int × Booking)
  next_guest_id : Int
  next_booking_id : Int
  history : List Nat
deriving DecidableEq

/-- Constructor `Hotel.__init__`: empty collections, both counters at 1, empty history. -/
def Hotel.new : Hotel := ⟨[], [], [], 1, 1, []⟩

/-- The error kinds of the spec taxonomy, one per `raise ValueError` site. -/
inductive Err where
  | DuplicateRoom
  | UnknownGuest
  | UnknownRoom
  | InvalidDateRange
  | RoomUnavailable
  | UnknownBooking
  | AlreadyCheckedOut
  | AlreadyCancelled
  | InvalidTransition
  | EmptyHistory
deriving DecidableEq

/-- Overlap test `CreateBooking._dates_overlap`. -/
def dates_overlap (a_start a_end b_start b_end : Int) : Bool :=
  decide (a_start < b_end) && decide (b_start < a_end)

/-- Conflict check `CreateBooking._room_is_available`: the for-loop over `hotel.bookings.values()`. -/
def room_is_available (bookings : List (Int × Booking)) (room_number check_in_date check_out_date : Int) : Bool :=
  bookings.all fun p =>
    if p.2.room_number ≠ room_number then true
    else if p.2.status = Status.cancelled ∨ p.2.status = Status.checked_out then true
    else ! dates_overlap check_in_date check_out_date p.2.check_in_date p.2.check_out_date

/-- One operation instance: constructor parameters plus memento fields. -/
inductive Operation where
  | addRoom (number capacity price_per_night : Int) (added : Bool)
  | registerGuest (name : String) (guest_id : Option Int)
  | createBooking (guest_id room_number check_in_date check_out_date : Int) (booking_id : Option Int)
  | cancelBooking (booking_id : Int) (prev_status : Option Status)
  | checkIn (booking_id : Int) (prev_status : Option Status)
  | checkOut (booking_id : Int) (prev_status : Option Status)
deriving DecidableEq

/-- Constructor `AddRoom.__init__`. -/
def AddRoom.new (number capacity price_per_night : Int) : Operation :=
  .addRoom number capacity price_per_night false

/-- Constructor `RegisterGuest.__init__`. -/
def RegisterGuest.new (name : String) : Operation :=
  .registerGuest name none

/-- Constructor `CreateBooking.__init__`. -/
def CreateBooking.new (guest_id room_number check_in_date check_out_date : Int) : Operation :=
  .createBooking guest_id room_number check_in_date check_out_date none

/-- Constructor `CancelBooking.__init__`. -/
def CancelBooking.new (booking_id : Int) : Operation :=
  .cancelBooking booking_id none

/-- Constructor `CheckIn.__init__`. -/
def CheckIn.new (booking_id : Int) : Operation :=
  .checkIn booking_id none

/-- Constructor `CheckOut.__init__`. -/
def CheckOut.new (booking_id : Int) : Operation :=
  .checkOut booking_id none

/-- Method `op.execute(hotel)`: returns the hotel as mutated up to the point of a
raise (no mutation precedes any raise in the source, which the theorems
establish), the updated instance, and the raised error if any. -/
def execute : Operation → Hotel → Hotel × Operation × Option Err
  | .addRoom number capacity price_per_night added, h =>
    if acontains h.rooms number then
      (h, .addRoom number capacity price_per_night added, some .DuplicateRoom)
    else
      ({ h with rooms := ainsert h.rooms number ⟨number, capacity, price_per_night⟩ },
       .addRoom number capacity price_per_night true, none)
  | .registerGuest name _, h =>
    ({ h with guests := ainsert h.guests h.next_guest_id ⟨h.next_guest_id, name⟩,
              next_guest_id := h.next_guest_id + 1 },
     .registerGuest name (some h.next_guest_id), none)
  | .createBooking guest_id room_number check_in_date check_out_date booking_id, h =>
    if acontains h.guests guest_id = false then
      (h, .createBooking guest_id room_number check_in_date check_out_date booking_id, some .UnknownGuest)
    else if acontains h.rooms room_number = false then
      (h, .createBooking guest_id room_number check_in_date check_out_date booking_id, some .UnknownRoom)
    else if check_in_date ≥ check_out_date then
      (h, .createBooking guest_id room_number check_in_date check_out_date booking_id, some .InvalidDateRange)
    else if room_is_available h.bookings room_number check_in_date check_out_date = false then
      (h, .createBooking guest_id room_number check_in_date check_out_date booking_id, some .RoomUnavailable)
    else
      ({ h with bookings := ainsert h.bookings h.next_booking_id
                  ⟨h.next_booking_id, guest_id, room_number, check_in_date, check_out_date, .booked⟩,
                next_booking_id := h.next_booking_id + 1 },
       .createBooking guest_id room_number check_in_date check_out_date (some h.next_booking_id), none)
  | .cancelBooking booking_id prev, h =>
    match alookup h.bookings booking_id with
    | none => (h, .cancelBooking booking_id prev, some .UnknownBooking)
    | some b =>
      if b.status = .checked_out then (h, .cancelBooking booking_id prev, some .AlreadyCheckedOut)
      else if b.status = .cancelled then (h, .cancelBooking booking_id prev, some .AlreadyCancelled)
      else ({ h with bookings := setStatus h.bookings booking_id .cancelled },
            .cancelBooking booking_id (some b.status), none)
  | .checkIn booking_id prev, h =>
    match alookup h.bookings booking_id with
    | none => (h, .checkIn booking_id prev, some .UnknownBooking)
    | some b =>
      if b.status ≠ .booked then (h, .checkIn booking_id prev, some .InvalidTransition)
      else ({ h with bookings := setStatus h.bookings booking_id .checked_in },
            .checkIn booking_id (some b.status), none)
  | .checkOut booking_id prev, h =>
    match alookup h.bookings booking_id with
    | none => (h, .checkOut booking_id prev, some .UnknownBooking)
    | some b =>
      if b.status ≠ .checked_in then (h, .checkOut booking_id prev, some .InvalidTransition)
      else ({ h with bookings := setStatus h.bookings booking_id .checked_out },
            .checkOut booking_id (some b.status), none)

/-- Method `op.undo(hotel)`; undo never mutates the operation instance in the source. -/
def undo : Operation → Hotel → Hotel
  | .addRoom number _ _ added, h =>
    if added && acontains h.rooms number then { h with rooms := aerase h.rooms number } else h
  | .registerGuest _ guest_id, h =>
    match guest_id with
    | some gid => if acontains h.guests gid then { h with guests := aerase h.guests gid } else h
    | none => h
  | .createBooking _ _ _ _ booking_id, h =>
    match booking_id with
    | some bid => if acontains h.bookings bid then { h with bookings := aerase h.bookings bid } else h
    | none => h
  | .cancelBooking booking_id prev, h =>
    match alookup h.bookings booking_id with
    | none => h
    | some _ =>
      match prev with
      | some st => { h with bookings := setStatus h.bookings booking_id st }
      | none => h
  | .checkIn booking_id prev, h =>
    match alookup h.bookings booking_id with
    | none => h
    | some _ =>
      match prev with
      | some st => { h with bookings := setStatus h.bookings booking_id st }
      | none => h
  | .checkOut booking_id prev, h =>
    match alookup h.bookings booking_id with
    | none => h
    | some _ =>
      match prev with
      | some st => { h with bookings := setStatus h.bookings booking_id st }
      | none => h

/-- The hotel together with the store of operation instances; an index into
`ops` plays the role of an object reference. -/
structure World where
  hotel : Hotel
  ops : List Operation
deriving DecidableEq

/-- Method `hotel.apply(ops[i])`: run `execute`, write the mutated instance back,
and append the reference to history only on success.  `none` when the index
does not denote a stored instance (no Python counterpart). -/
def World.applyAt (w : World) (i : Nat) : Option (World × Option Err) :=
  match w.ops.get? i with
  | none => none
  | some op =>
    let r := execute op w.hotel
    match r.2.2 with
    | some e => some (⟨r.1, w.ops.set i r.2.1⟩, some e)
    | none => some (⟨{ r.1 with history := r.1.history ++ [i] }, w.ops.set i r.2.1⟩, none)

/-- Method `hotel.undo_last()`: raise `EmptyHistory` on empty history, else pop the
most recent reference and run that instance's undo. -/
def World.undoLast (w : World) : World × Option Err :=
  match w.hotel.history.getLast? with
  | none => (w, some .EmptyHistory)
  | some i =>
    let h1 : Hotel := { w.hotel with history := w.hotel.history.dropLast }
    match w.ops.get? i with
    | none => (⟨h1, w.ops⟩, none)
    | some op => (⟨undo op h1, w.ops⟩, none)

/-- A caller action: construct an instance, apply a stored instance, or undo. -/
inductive Act where
  | newOp (op : Operation)
  | applyAt (i : Nat)
  | undoLast
deriving DecidableEq

/-- One caller action on the world; the flag records whether it succeeded. -/
def World.stepAct (w : World) : Act → World × Bool
  | .newOp op => (⟨w.hotel, w.ops ++ [op]⟩, true)
  | .applyAt i =>
    match w.applyAt i with
    | none => (w, false)
    | some (w1, e) => (w1, e.isNone)
  | .undoLast =>
    let r := w.undoLast
    (r.1, r.2.isNone)

/-- Run a list of actions; the flag is true when every action succeeded. -/
def runActs : World → List Act → World × Bool
  | w, [] => (w, true)
  | w, a :: rest =>
    let r := w.stepAct a
    let r2 := runActs r.1 rest
    (r2.1, r.2 && r2.2)

/-- The observable aggregate fields named by the spec's invertibility
property: the three collections and the history (not the id counters). -/
def Hotel.obs (h : Hotel) : List (Int × Room) × List (Int × Guest) × List (Int × Booking) × List Nat :=
  (h.rooms, h.guests, h.bookings, h.history)

/-- A status outside the set that the conflict check skips. -/
def isActive (st : Status) : Bool :=
  ! (decide (st = Status.cancelled) || decide (st = Status.checked_out))

/-- Two bookings block each other: same room, both active, overlapping ranges. -/
def bookingsConflict (b1 b2 : Booking) : Bool :=
  decide (b1.room_number = b2.room_number) && isActive b1.status && isActive b2.status &&
    dates_overlap b1.check_in_date b1.check_out_date b2.check_in_date b2.check_out_date

/-- No stored booking conflicts with `b`. -/
def noConflictWith (b : Booking) (l : List (Int × Booking)) : Bool :=
  l.all fun p => ! bookingsConflict b p.2

/-- Pairwise absence of conflicts: the spec's no-overlap invariant. -/
def overlapFree : List (Int × Booking) → Bool
  | [] => true
  | p :: rest => noConflictWith p.2 rest && overlapFree rest

/-- Every stored guest id is below the guest counter and every stored
booking id below the booking counter: true in every state the aggregate
actually reaches. -/
def idBound (h : Hotel) : Bool :=
  (h.guests.all fun p => decide (p.1 < h.next_guest_id)) &&
    (h.bookings.all fun p => decide (p.1 < h.next_booking_id))

/-- The next ids to be assigned are not already keys of their collections. -/
def noClash (h : Hotel) : Bool :=
  (! acontains h.guests h.next_guest_id) && (! acontains h.bookings h.next_booking_id)

/-- Worlds reachable by arbitrary caller behaviour, operation-instance
reuse included. -/
inductive ReachAny : World → Prop where
  | init : ReachAny ⟨Hotel.new, []⟩
  | newOp (w : World) (op : Operation) : ReachAny w → ReachAny ⟨w.hotel, w.ops ++ [op]⟩
  | applyOk (w w1 : World) (i : Nat) : ReachAny w → w.applyAt i = some (w1, none) → ReachAny w1
  | undoOk (w w1 : World) : ReachAny w → w.undoLast = (w1, none) → ReachAny w1

/-- Worlds reachable when every applied instance is freshly constructed
(each instance applied at most once). -/
inductive ReachFresh : World → Prop where
  | init : ReachFresh ⟨Hotel.new, []⟩
  | applyNew (w w1 : World) (op : Operation) :
      ReachFresh w →
      World.applyAt ⟨w.hotel, w.ops ++ [op]⟩ w.ops.length = some (w1, none) → ReachFresh w1
  | undoOk (w w1 : World) : ReachFresh w → w.undoLast = (w1, none) → ReachFresh w1

/-- A just-constructed instance: no memento filled in yet. -/
def isFreshOp : Operation → Bool
  | .addRoom _ _ _ added => !added
  | .registerGuest _ g => g.isNone
  | .createBooking _ _ _ _ b => b.isNone
  | .cancelBooking _ p => p.isNone
  | .checkIn _ p => p.isNone
  | .checkOut _ p => p.isNone

/-- The states the spec's invariants talk about: pairwise no-overlap plus
id counters strictly above every stored id. -/
def okHotel (h : Hotel) : Bool :=
  overlapFree h.bookings && idBound h

/-- The undo chain of a hotel is sound: the current state is good, the
most recent history entry denotes a stored instance, and popping it yields
a state whose own chain is again sound.  This is the induction invariant
behind the no-overlap property. -/
inductive ChainGood (ops : List Operation) : Hotel → Prop where
  | nil {h : Hotel} : h.history = [] → okHotel h = true → ChainGood ops h
  | cons {h : Hotel} {hist : List Nat} {i : Nat} {op : Operation} :
      h.history = hist ++ [i] → ops.get? i = some op → okHotel h = true →
      ChainGood ops (undo op { h with history := hist }) →
      ChainGood ops h

/-- A world whose only stored instance is a booking request for an
unregistered guest; used to witness failed-execute atomicity. -/
def failWorld : World := ⟨Hotel.new, [CreateBooking.new 1 101 25 28]⟩

/-- A hotel holding one checked-out booking; used to witness the status
state machine. -/
def checkedOutHotel : Hotel :=
  ⟨[], [], [(1, ⟨1, 1, 101, 25, 28, Status.checked_out⟩)], 1, 2, []⟩

/-- A world with one applied RegisterGuest in its history. -/
def histWorld : World := ⟨⟨[], [], [], 1, 1, [0]⟩, [RegisterGuest.new "a"]⟩

/-- A hotel whose guest counter collides with an existing guest key.  No
state reachable through the public API looks like this, but the claim
quantifies over every aggregate state, and the Python class admits it. -/
def clashHotel : Hotel := ⟨[], [(1, ⟨1, "alice"⟩)], [], 1, 1, []⟩

/-- The trace that breaks the no-overlap invariant by applying the same
CreateBooking instance (index 4) twice: the second pop of instance 4 is a
no-op, after which undoing the old CancelBooking (index 3) reactivates an
overlapping booking. -/
def reuseTrace : List Act :=
  [Act.newOp (AddRoom.new 101 2 3500), Act.applyAt 0,
   Act.newOp (RegisterGuest.new "g"), Act.applyAt 1,
   Act.newOp (CreateBooking.new 1 101 25 28), Act.applyAt 2,
   Act.newOp (CancelBooking.new 1), Act.applyAt 3,
   Act.newOp (CreateBooking.new 1 101 25 28), Act.applyAt 4,
   Act.newOp (CancelBooking.new 2), Act.applyAt 5,
   Act.applyAt 4,
   Act.undoLast, Act.undoLast, Act.undoLast, Act.undoLast]

/-- Register a guest, undo it, then register another guest. -/
def regScenario : List Act :=
  [Act.newOp (RegisterGuest.new "a"), Act.applyAt 0, Act.undoLast,
   Act.newOp (RegisterGuest.new "b"), Act.applyAt 1]

theorem alookup_ainsert_self {V : Type} (l : List (Int × V)) (k : Int) (v : V) :
    alookup (ainsert l k v) k = some v := by
  induction l with
  | nil => simp [ainsert, alookup]
  | cons p rest ih =>
    obtain ⟨k0, v0⟩ := p
    by_cases hk : k0 = k
    · simp [ainsert, hk, alookup]
    · simp [ainsert, hk, alookup, ih]

theorem aerase_ainsert_of_none {V : Type} (l : List (Int × V)) (k : Int) (v : V)
    (h : alookup l k = none) : aerase (ainsert l k v) k = l := by
  induction l with
  | nil => simp [ainsert, aerase]
  | cons p rest ih =>
    obtain ⟨k0, v0⟩ := p
    by_cases hk : k0 = k
    · simp [alookup, hk] at h
    · simp only [alookup, if_neg hk] at h
      simp [ainsert, hk, aerase, ih h]

theorem ainsert_of_none {V : Type} (l : List (Int × V)) (k : Int) (v : V)
    (h : alookup l k = none) : ainsert l k v = l ++ [(k, v)] := by
  induction l with
  | nil => simp [ainsert]
  | cons p rest ih =>
    obtain ⟨k0, v0⟩ := p
    by_cases hk : k0 = k
    · simp [alookup, hk] at h
    · simp only [alookup, if_neg hk] at h
      simp [ainsert, hk, ih h]

theorem aerase_concat_of_none {V : Type} (l : List (Int × V)) (k : Int) (v : V)
    (h : alookup l k = none) : aerase (l ++ [(k, v)]) k = l := by
  rw [← ainsert_of_none l k v h]
  exact aerase_ainsert_of_none l k v h

theorem alookup_setStatus_self (l : List (Int × Booking)) (k : Int) (st : Status) (b : Booking)
    (h : alookup l k = some b) :
    alookup (setStatus l k st) k = some { b with status := st } := by
  induction l with
  | nil => simp [alookup] at h
  | cons p rest ih =>
    obtain ⟨k0, b0⟩ := p
    by_cases hk : k0 = k
    · simp only [alookup, if_pos hk, Option.some.injEq] at h
      simp [setStatus, hk, alookup, h]
    · simp only [alookup, if_neg hk] at h
      simp [setStatus, hk, alookup, ih h]

theorem setStatus_restore (l : List (Int × Booking)) (k : Int) (st : Status) (b : Booking)
    (h : alookup l k = some b) :
    setStatus (setStatus l k st) k b.status = l := by
  induction l with
  | nil => simp [alookup] at h
  | cons p rest ih =>
    obtain ⟨k0, b0⟩ := p
    by_cases hk : k0 = k
    · simp only [alookup, if_pos hk, Option.some.injEq] at h
      subst h
      simp [setStatus, hk]
    · simp only [alookup, if_neg hk] at h
      simp [setStatus, hk, ih h]

theorem setStatus_of_none (l : List (Int × Booking)) (k : Int) (st : Status)
    (h : alookup l k = none) : setStatus l k st = l := by
  induction l with
  | nil => simp [setStatus]
  | cons p rest ih =>
    obtain ⟨k0, b0⟩ := p
    by_cases hk : k0 = k
    · simp [alookup, hk] at h
    · simp only [alookup, if_neg hk] at h
      simp [setStatus, hk, ih h]

theorem list_set_self {α : Type} (l : List α) (i : Nat) (x : α) (h : l.get? i = some x) :
    l.set i x = l := by
  induction l generalizing i with
  | nil => simp [List.get?] at h
  | cons a rest ih =>
    cases i with
    | zero =>
      simp only [List.get?, Option.some.injEq] at h
      simp [List.set, h]
    | succ n =>
      simp only [List.get?] at h
      simp [List.set, ih n h]

theorem list_set_concat {α : Type} (l : List α) (a b : α) :
    (l ++ [a]).set l.length b = l ++ [b] := by
  induction l with
  | nil => rfl
  | cons x rest ih => simp [List.set, ih]

theorem isActive_iff (st : Status) :
    isActive st = true ↔ ¬ (st = Status.cancelled ∨ st = Status.checked_out) := by
  cases st <;> simp [isActive]

theorem bookingsConflict_iff (b1 b2 : Booking) :
    bookingsConflict b1 b2 = true ↔
      b1.room_number = b2.room_number ∧ isActive b1.status = true ∧ isActive b2.status = true ∧
        b1.check_in_date < b2.check_out_date ∧ b2.check_in_date < b1.check_out_date := by
  simp [bookingsConflict, dates_overlap, and_assoc]

theorem bookingsConflict_symm (b1 b2 : Booking) :
    bookingsConflict b1 b2 = bookingsConflict b2 b1 := by
  rw [Bool.eq_iff_iff, bookingsConflict_iff, bookingsConflict_iff]
  constructor <;> rintro ⟨h1, h2, h3, h4, h5⟩ <;> exact ⟨h1.symm, h3, h2, h5, h4⟩

theorem bookingsConflict_inactive_left (b1 b2 : Booking) (h : isActive b1.status = false) :
    bookingsConflict b1 b2 = false := by
  simp [bookingsConflict, h]

theorem bookingsConflict_inactive_right (b1 b2 : Booking) (h : isActive b2.status = false) :
    bookingsConflict b1 b2 = false := by
  simp [bookingsConflict, h]

theorem bookingsConflict_congr_left (b b' c : Booking)
    (hroom : b'.room_number = b.room_number) (hci : b'.check_in_date = b.check_in_date)
    (hco : b'.check_out_date = b.check_out_date) (hact : isActive b'.status = isActive b.status) :
    bookingsConflict b' c = bookingsConflict b c := by
  simp [bookingsConflict, hroom, hci, hco, hact]

theorem bookingsConflict_congr_right (b b' c : Booking)
    (hroom : b'.room_number = b.room_number) (hci : b'.check_in_date = b.check_in_date)
    (hco : b'.check_out_date = b.check_out_date) (hact : isActive b'.status = isActive b.status) :
    bookingsConflict c b' = bookingsConflict c b := by
  rw [bookingsConflict_symm c b', bookingsConflict_symm c b]
  exact bookingsConflict_congr_left b b' c hroom hci hco hact

theorem noConflictWith_iff (b : Booking) (l : List (Int × Booking)) :
    noConflictWith b l = true ↔ ∀ p ∈ l, bookingsConflict b p.2 = false := by
  simp [noConflictWith, List.all_eq_true]

theorem overlapFree_concat (l : List (Int × Booking)) (k : Int) (b : Booking)
    (hl : overlapFree l = true) (hb : ∀ p ∈ l, bookingsConflict p.2 b = false) :
    overlapFree (l ++ [(k, b)]) = true := by
  induction l with
  | nil => simp [overlapFree, noConflictWith]
  | cons p rest ih =>
    simp only [overlapFree, Bool.and_eq_true] at hl
    simp only [List.cons_append, overlapFree, Bool.and_eq_true]
    refine ⟨?_, ih hl.2 (fun q hq => hb q (List.mem_cons_of_mem p hq))⟩
    rw [noConflictWith_iff]
    intro q hq
    rcases List.mem_append.mp hq with hq | hq
    · exact (noConflictWith_iff p.2 rest).mp hl.1 q hq
    · have hqe : q = (k, b) := by simpa using hq
      subst hqe
      exact hb p (List.mem_cons_self p rest)

theorem avail_mem (l : List (Int × Booking)) (r ci co : Int)
    (hav : room_is_available l r ci co = true) :
    ∀ p ∈ l, p.2.room_number = r →
      ¬ (p.2.status = Status.cancelled ∨ p.2.status = Status.checked_out) →
      ¬ (ci < p.2.check_out_date ∧ p.2.check_in_date < co) := by
  intro p hp hroom hst
  have h1 := (List.all_eq_true.mp hav) p hp
  simp only [hroom, ne_eq, not_true_eq_false, if_false, if_neg hst,
    Bool.not_eq_true', dates_overlap, Bool.and_eq_false_iff, decide_eq_false_iff_not] at h1
  rcases h1 with h1 | h1
  · intro hc; exact h1 hc.1
  · intro hc; exact h1 hc.2

theorem avail_of_mem (l : List (Int × Booking)) (r ci co : Int)
    (hmem : ∀ p ∈ l, p.2.room_number = r →
      ¬ (p.2.status = Status.cancelled ∨ p.2.status = Status.checked_out) →
      ¬ (ci < p.2.check_out_date ∧ p.2.check_in_date < co)) :
    room_is_available l r ci co = true := by
  rw [room_is_available, List.all_eq_true]
  intro p hp
  by_cases hroom : p.2.room_number = r
  · by_cases hst : p.2.status = Status.cancelled ∨ p.2.status = Status.checked_out
    · simp [hroom, hst]
    · have := hmem p hp hroom hst
      simp only [hroom, ne_eq, not_true_eq_false, if_false, if_neg hst, Bool.not_eq_true',
        dates_overlap, Bool.and_eq_false_iff, decide_eq_false_iff_not]
      by_cases h1 : ci < p.2.check_out_date
      · exact Or.inr (fun h2 => this ⟨h1, h2⟩)
      · exact Or.inl h1
  · simp [hroom]

theorem room_is_available_iff (l : List (Int × Booking)) (r ci co : Int) :
    room_is_available l r ci co = true ↔
      ∀ p ∈ l, p.2.room_number = r →
        ¬ (p.2.status = Status.cancelled ∨ p.2.status = Status.checked_out) →
        ¬ (ci < p.2.check_out_date ∧ p.2.check_in_date < co) :=
  ⟨avail_mem l r ci co, avail_of_mem l r ci co⟩

theorem room_is_available_noConflict (l : List (Int × Booking)) (r ci co bid gid : Int)
    (hav : room_is_available l r ci co = true) :
    ∀ p ∈ l, bookingsConflict p.2 ⟨bid, gid, r, ci, co, Status.booked⟩ = false := by
  intro p hp
  by_cases hroom : p.2.room_number = r
  · by_cases hact : isActive p.2.status = true
    · have hst := (isActive_iff p.2.status).mp hact
      have hno := avail_mem l r ci co hav p hp hroom hst
      rw [Bool.eq_false_iff]
      intro hcon
      have := (bookingsConflict_iff p.2 _).mp hcon
      exact hno ⟨this.2.2.2.2, this.2.2.2.1⟩
    · exact bookingsConflict_inactive_left _ _ (Bool.eq_false_iff.mpr hact)
  · rw [Bool.eq_false_iff]
    intro hcon
    exact hroom ((bookingsConflict_iff p.2 _).mp hcon).1

theorem noConflictWith_setStatus_inactive (c : Booking) (l : List (Int × Booking))
    (k : Int) (st : Status) (hin : isActive st = false) (hc : noConflictWith c l = true) :
    noConflictWith c (setStatus l k st) = true := by
  induction l with
  | nil => simp [setStatus, noConflictWith]
  | cons p rest ih =>
    obtain ⟨k0, b0⟩ := p
    simp only [noConflictWith, List.all_cons, Bool.and_eq_true, Bool.not_eq_true'] at hc
    by_cases hk : k0 = k
    · simp only [setStatus, if_pos hk, noConflictWith, List.all_cons, Bool.and_eq_true,
        Bool.not_eq_true']
      exact ⟨bookingsConflict_inactive_right _ _ hin, hc.2⟩
    · simp only [setStatus, if_neg hk, noConflictWith, List.all_cons, Bool.and_eq_true,
        Bool.not_eq_true']
      exact ⟨hc.1, ih hc.2⟩

theorem overlapFree_setStatus_inactive (l : List (Int × Booking)) (k : Int) (st : Status)
    (hin : isActive st = false) (hl : overlapFree l = true) :
    overlapFree (setStatus l k st) = true := by
  induction l with
  | nil => simp [setStatus, overlapFree]
  | cons p rest ih =>
    obtain ⟨k0, b0⟩ := p
    simp only [overlapFree, Bool.and_eq_true] at hl
    by_cases hk : k0 = k
    · simp only [setStatus, if_pos hk, overlapFree, Bool.and_eq_true]
      refine ⟨?_, hl.2⟩
      rw [noConflictWith_iff]
      intro q hq
      exact bookingsConflict_inactive_left _ _ hin
    · simp only [setStatus, if_neg hk, overlapFree, Bool.and_eq_true]
      exact ⟨noConflictWith_setStatus_inactive _ _ _ _ hin hl.1, ih hl.2⟩

theorem noConflictWith_setStatus_sameActive (c : Booking) (l : List (Int × Booking))
    (k : Int) (st : Status) (b : Booking) (hb : alookup l k = some b)
    (hact : isActive st = isActive b.status) (hc : noConflictWith c l = true) :
    noConflictWith c (setStatus l k st) = true := by
  induction l with
  | nil => simp [alookup] at hb
  | cons p rest ih =>
    obtain ⟨k0, b0⟩ := p
    simp only [noConflictWith, List.all_cons, Bool.and_eq_true, Bool.not_eq_true'] at hc
    by_cases hk : k0 = k
    · simp only [alookup, if_pos hk, Option.some.injEq] at hb
      subst hb
      simp only [setStatus, if_pos hk, noConflictWith, List.all_cons, Bool.and_eq_true,
        Bool.not_eq_true']
      refine ⟨?_, hc.2⟩
      rw [bookingsConflict_congr_right b0 ({ b0 with status := st }) c rfl rfl rfl hact]
      exact hc.1
    · simp only [alookup, if_neg hk] at hb
      simp only [setStatus, if_neg hk, noConflictWith, List.all_cons, Bool.and_eq_true,
        Bool.not_eq_true']
      exact ⟨hc.1, ih hb hc.2⟩

theorem overlapFree_setStatus_sameActive (l : List (Int × Booking)) (k : Int) (st : Status)
    (b : Booking) (hb : alookup l k = some b) (hact : isActive st = isActive b.status)
    (hl : overlapFree l = true) : overlapFree (setStatus l k st) = true := by
  induction l with
  | nil => simp [setStatus, overlapFree]
  | cons p rest ih =>
    obtain ⟨k0, b0⟩ := p
    simp only [overlapFree, Bool.and_eq_true] at hl
    by_cases hk : k0 = k
    · simp only [alookup, if_pos hk, Option.some.injEq] at hb
      subst hb
      simp only [setStatus, if_pos hk, overlapFree, Bool.and_eq_true]
      refine ⟨?_, hl.2⟩
      rw [noConflictWith_iff] at hl ⊢
      intro q hq
      rw [bookingsConflict_congr_left b0 ({ b0 with status := st }) q.2 rfl rfl rfl hact]
      exact hl.1 q hq
    · simp only [alookup, if_neg hk] at hb
      simp only [setStatus, if_neg hk, overlapFree, Bool.and_eq_true]
      exact ⟨noConflictWith_setStatus_sameActive _ _ _ _ _ hb hact hl.1, ih hb hl.2⟩

theorem idBound_iff (h : Hotel) :
    idBound h = true ↔
      (∀ p ∈ h.guests, p.1 < h.next_guest_id) ∧
        (∀ p ∈ h.bookings, p.1 < h.next_booking_id) := by
  simp [idBound, List.all_eq_true]

theorem alookup_none_of_lt {V : Type} (l : List (Int × V)) (c : Int)
    (h : ∀ p ∈ l, p.1 < c) : alookup l c = none := by
  induction l with
  | nil => rfl
  | cons p rest ih =>
    obtain ⟨k0, v0⟩ := p
    have hne : k0 ≠ c := by
      have := h (k0, v0) (List.mem_cons_self _ _)
      omega
    simp [alookup, hne, ih (fun q hq => h q (List.mem_cons_of_mem _ hq))]

theorem idBound_noClash (h : Hotel) (hb : idBound h = true) : noClash h = true := by
  rw [idBound_iff] at hb
  simp [noClash, acontains, alookup_none_of_lt _ _ hb.1, alookup_none_of_lt _ _ hb.2]

theorem idBound_mono (h h' : Hotel) (hg : h.guests = h'.guests) (hb : h.bookings = h'.bookings)
    (h1 : h.next_guest_id ≤ h'.next_guest_id) (h2 : h.next_booking_id ≤ h'.next_booking_id)
    (hid : idBound h = true) : idBound h' = true := by
  rw [idBound_iff] at hid ⊢
  rw [← hg, ← hb]
  exact ⟨fun p hp => lt_of_lt_of_le (hid.1 p hp) h1,
    fun p hp => lt_of_lt_of_le (hid.2 p hp) h2⟩

theorem setStatus_keys_sub (l : List (Int × Booking)) (k : Int) (st : Status)
    (q : Int → Prop) (hl : ∀ p ∈ l, q p.1) : ∀ p ∈ setStatus l k st, q p.1 := by
  induction l with
  | nil => simp [setStatus]
  | cons p rest ih =>
    obtain ⟨k0, b0⟩ := p
    by_cases hk : k0 = k
    · simp only [setStatus, if_pos hk]
      intro p hp
      rcases List.mem_cons.mp hp with hp | hp
      · subst hp; exact hl (k0, b0) (List.mem_cons_self _ _)
      · exact hl p (List.mem_cons_of_mem _ hp)
    · simp only [setStatus, if_neg hk]
      intro p hp
      rcases List.mem_cons.mp hp with hp | hp
      · subst hp; exact hl (k0, b0) (List.mem_cons_self _ _)
      · exact ih (fun r hr => hl r (List.mem_cons_of_mem _ hr)) p hp

theorem aerase_keys_sub {V : Type} (l : List (Int × V)) (k : Int)
    (q : Int → Prop) (hl : ∀ p ∈ l, q p.1) : ∀ p ∈ aerase l k, q p.1 := by
  induction l with
  | nil => simp [aerase]
  | cons p rest ih =>
    obtain ⟨k0, v0⟩ := p
    by_cases hk : k0 = k
    · simp only [aerase, if_pos hk]
      intro p hp
      exact hl p (List.mem_cons_of_mem _ hp)
    · simp only [aerase, if_neg hk]
      intro p hp
      rcases List.mem_cons.mp hp with hp | hp
      · subst hp; exact hl (k0, v0) (List.mem_cons_self _ _)
      · exact ih (fun r hr => hl r (List.mem_cons_of_mem _ hr)) p hp

theorem undo_frame (op : Operation) (h : Hotel) :
    (undo op h).next_guest_id = h.next_guest_id ∧
      (undo op h).next_booking_id = h.next_booking_id ∧
      (undo op h).history = h.history := by
  cases op with
  | addRoom n c p a =>
    by_cases hc : (a && acontains h.rooms n) = true
    · simp [undo, hc]
    · simp [undo, Bool.eq_false_iff.mpr hc]
  | registerGuest name g =>
    cases g with
    | none => simp [undo]
    | some gid =>
      by_cases hc : acontains h.guests gid
      · simp [undo, hc]
      · simp [undo, hc]
  | createBooking gid r ci co b =>
    cases b with
    | none => simp [undo]
    | some bid =>
      by_cases hc : acontains h.bookings bid
      · simp [undo, hc]
      · simp [undo, hc]
  | cancelBooking bid prev =>
    cases hb : alookup h.bookings bid with
    | none => simp [undo, hb]
    | some b => cases prev <;> simp [undo, hb]
  | checkIn bid prev =>
    cases hb : alookup h.bookings bid with
    | none => simp [undo, hb]
    | some b => cases prev <;> simp [undo, hb]
  | checkOut bid prev =>
    cases hb : alookup h.bookings bid with
    | none => simp [undo, hb]
    | some b => cases prev <;> simp [undo, hb]

theorem undo_congr (op : Operation) (h h' : Hotel)
    (hr : h.rooms = h'.rooms) (hg : h.guests = h'.guests) (hb : h.bookings = h'.bookings) :
    (undo op h).rooms = (undo op h').rooms ∧
      (undo op h).guests = (undo op h').guests ∧
      (undo op h).bookings = (undo op h').bookings := by
  cases op with
  | addRoom n c p a =>
    by_cases hc : (a && acontains h.rooms n) = true
    · simp [undo, hc, hr ▸ hc, hr, hg, hb]
    · have hc' : (a && acontains h'.rooms n) = false := by
        rw [← hr]; exact Bool.eq_false_iff.mpr hc
      simp [undo, Bool.eq_false_iff.mpr hc, hc', hr, hg, hb]
  | registerGuest name g =>
    cases g with
    | none => simp [undo, hr, hg, hb]
    | some gid =>
      by_cases hc : acontains h.guests gid
      · simp [undo, hc, hg ▸ hc, hr, hg, hb]
      · have hc' : ¬ acontains h'.guests gid = true := by rw [← hg]; exact hc
        simp [undo, hc, hc', hr, hg, hb]
  | createBooking gid r ci co b =>
    cases b with
    | none => simp [undo, hr, hg, hb]
    | some bid =>
      by_cases hc : acontains h.bookings bid
      · simp [undo, hc, hb ▸ hc, hr, hg, hb]
      · have hc' : ¬ acontains h'.bookings bid = true := by rw [← hb]; exact hc
        simp [undo, hc, hc', hr, hg, hb]
  | cancelBooking bid prev =>
    cases hbk : alookup h.bookings bid with
    | none => simp [undo, hbk, hb ▸ hbk, hr, hg, hb]
    | some b => cases prev <;> simp [undo, hbk, hb ▸ hbk, hr, hg, hb]
  | checkIn bid prev =>
    cases hbk : alookup h.bookings bid with
    | none => simp [undo, hbk, hb ▸ hbk, hr, hg, hb]
    | some b => cases prev <;> simp [undo, hbk, hb ▸ hbk, hr, hg, hb]
  | checkOut bid prev =>
    cases hbk : alookup h.bookings bid with
    | none => simp [undo, hbk, hb ▸ hbk, hr, hg, hb]
    | some b => cases prev <;> simp [undo, hbk, hb ▸ hbk, hr, hg, hb]

theorem execute_error (op : Operation) (h h1 : Hotel) (op1 : Operation) (e : Err)
    (he : execute op h = (h1, op1, some e)) : h1 = h ∧ op1 = op := by
  cases op with
  | addRoom n c p a =>
    simp only [execute] at he
    split at he <;> simp only [Prod.mk.injEq] at he
    · exact ⟨he.1.symm, he.2.1.symm⟩
    · exact absurd he.2.2 (by simp)
  | registerGuest name g =>
    simp only [execute, Prod.mk.injEq] at he
    exact absurd he.2.2 (by simp)
  | createBooking gid r ci co b =>
    simp only [execute] at he
    split at he
    · simp only [Prod.mk.injEq] at he; exact ⟨he.1.symm, he.2.1.symm⟩
    · split at he
      · simp only [Prod.mk.injEq] at he; exact ⟨he.1.symm, he.2.1.symm⟩
      · split at he
        · simp only [Prod.mk.injEq] at he; exact ⟨he.1.symm, he.2.1.symm⟩
        · split at he
          · simp only [Prod.mk.injEq] at he; exact ⟨he.1.symm, he.2.1.symm⟩
          · simp only [Prod.mk.injEq] at he; exact absurd he.2.2 (by simp)
  | cancelBooking bid prev =>
    simp only [execute] at he
    split at he
    · simp only [Prod.mk.injEq] at he; exact ⟨he.1.symm, he.2.1.symm⟩
    · split at he
      · simp only [Prod.mk.injEq] at he; exact ⟨he.1.symm, he.2.1.symm⟩
      · split at he
        · simp only [Prod.mk.injEq] at he; exact ⟨he.1.symm, he.2.1.symm⟩
        · simp only [Prod.mk.injEq] at he; exact absurd he.2.2 (by simp)
  | checkIn bid prev =>
    simp only [execute] at he
    split at he
    · simp only [Prod.mk.injEq] at he; exact ⟨he.1.symm, he.2.1.symm⟩
    · split at he
      · simp only [Prod.mk.injEq] at he; exact ⟨he.1.symm, he.2.1.symm⟩
      · simp only [Prod.mk.injEq] at he; exact absurd he.2.2 (by simp)
  | checkOut bid prev =>
    simp only [execute] at he
    split at he
    · simp only [Prod.mk.injEq] at he; exact ⟨he.1.symm, he.2.1.symm⟩
    · split at he
      · simp only [Prod.mk.injEq] at he; exact ⟨he.1.symm, he.2.1.symm⟩
      · simp only [Prod.mk.injEq] at he; exact absurd he.2.2 (by simp)

theorem execute_frame (op : Operation) (h : Hotel) :
    h.next_guest_id ≤ (execute op h).1.next_guest_id ∧
      h.next_booking_id ≤ (execute op h).1.next_booking_id ∧
      (execute op h).1.history = h.history := by
  cases op <;> simp only [execute] <;> (repeat' split) <;> simp

theorem noClash_guests (h : Hotel) (hnc : noClash h = true) :
    alookup h.guests h.next_guest_id = none := by
  cases halo : alookup h.guests h.next_guest_id with
  | none => rfl
  | some _ =>
    simp [noClash, acontains, halo] at hnc

theorem noClash_bookings (h : Hotel) (hnc : noClash h = true) :
    alookup h.bookings h.next_booking_id = none := by
  cases halo : alookup h.bookings h.next_booking_id with
  | none => rfl
  | some _ =>
    simp [noClash, acontains, halo] at hnc

theorem execute_undo_restore (op : Operation) (h h1 : Hotel) (op1 : Operation)
    (hnc : noClash h = true) (he : execute op h = (h1, op1, none)) :
    undo op1 h1 = { h1 with rooms := h.rooms, guests := h.guests, bookings := h.bookings } := by
  cases op with
  | addRoom n c p a =>
    simp only [execute] at he
    split at he
    · simp at he
    · rename_i hc
      simp only [Prod.mk.injEq] at he
      obtain ⟨hh1, hop1, _⟩ := he
      subst hh1; subst hop1
      have hnone : alookup h.rooms n = none := by
        cases halo : alookup h.rooms n with
        | none => rfl
        | some _ => rw [acontains, halo] at hc; simp at hc
      have hcont : acontains (ainsert h.rooms n ⟨n, c, p⟩) n = true := by
        simp [acontains, alookup_ainsert_self]
      simp only [undo, Bool.true_and, hcont, if_true]
      rw [aerase_ainsert_of_none h.rooms n _ hnone]
  | registerGuest name g =>
    simp only [execute, Prod.mk.injEq] at he
    obtain ⟨hh1, hop1, _⟩ := he
    subst hh1; subst hop1
    have hnone := noClash_guests h hnc
    have hcont : acontains (ainsert h.guests h.next_guest_id ⟨h.next_guest_id, name⟩)
        h.next_guest_id = true := by
      simp [acontains, alookup_ainsert_self]
    simp only [undo, hcont, if_true]
    rw [aerase_ainsert_of_none h.guests _ _ hnone]
  | createBooking gid r ci co b =>
    simp only [execute] at he
    split at he
    · simp at he
    · split at he
      · simp at he
      · split at he
        · simp at he
        · split at he
          · simp at he
          · simp only [Prod.mk.injEq] at he
            obtain ⟨hh1, hop1, _⟩ := he
            subst hh1; subst hop1
            have hnone := noClash_bookings h hnc
            have hcont : acontains (ainsert h.bookings h.next_booking_id
                ⟨h.next_booking_id, gid, r, ci, co, Status.booked⟩) h.next_booking_id = true := by
              simp [acontains, alookup_ainsert_self]
            simp only [undo, hcont, if_true]
            rw [aerase_ainsert_of_none h.bookings _ _ hnone]
  | cancelBooking bid prev =>
    simp only [execute] at he
    split at he
    · simp at he
    · rename_i b hb
      split at he
      · simp at he
      · split at he
        · simp at he
        · simp only [Prod.mk.injEq] at he
          obtain ⟨hh1, hop1, _⟩ := he
          subst hh1; subst hop1
          have hlook := alookup_setStatus_self h.bookings bid Status.cancelled b hb
          simp only [undo, hlook]
          rw [setStatus_restore h.bookings bid Status.cancelled b hb]
  | checkIn bid prev =>
    simp only [execute] at he
    split at he
    · simp at he
    · rename_i b hb
      split at he
      · simp at he
      · simp only [Prod.mk.injEq] at he
        obtain ⟨hh1, hop1, _⟩ := he
        subst hh1; subst hop1
        have hlook := alookup_setStatus_self h.bookings bid Status.checked_in b hb
        simp only [undo, hlook]
        rw [setStatus_restore h.bookings bid Status.checked_in b hb]
  | checkOut bid prev =>
    simp only [execute] at he
    split at he
    · simp at he
    · rename_i b hb
      split at he
      · simp at he
      · simp only [Prod.mk.injEq] at he
        obtain ⟨hh1, hop1, _⟩ := he
        subst hh1; subst hop1
        have hlook := alookup_setStatus_self h.bookings bid Status.checked_out b hb
        simp only [undo, hlook]
        rw [setStatus_restore h.bookings bid Status.checked_out b hb]

theorem execute_ok (op : Operation) (h h1 : Hotel) (op1 : Operation)
    (hok : okHotel h = true) (he : execute op h = (h1, op1, none)) : okHotel h1 = true := by
  rw [okHotel, Bool.and_eq_true] at hok
  obtain ⟨hof, hid⟩ := hok
  rw [idBound_iff] at hid
  cases op with
  | addRoom n c p a =>
    simp only [execute] at he
    split at he
    · simp at he
    · simp only [Prod.mk.injEq] at he
      obtain ⟨hh1, _, _⟩ := he
      subst hh1
      rw [okHotel, Bool.and_eq_true]
      exact ⟨hof, (idBound_iff _).mpr hid⟩
  | registerGuest name g =>
    simp only [execute, Prod.mk.injEq] at he
    obtain ⟨hh1, _, _⟩ := he
    subst hh1
    rw [okHotel, Bool.and_eq_true]
    refine ⟨hof, (idBound_iff _).mpr ⟨?_, hid.2⟩⟩
    intro p hp
    rw [ainsert_of_none h.guests h.next_guest_id _
      (alookup_none_of_lt h.guests h.next_guest_id hid.1)] at hp
    rcases List.mem_append.mp hp with hp | hp
    · have := hid.1 p hp
      simp only []
      omega
    · have hpe : p = (h.next_guest_id, ⟨h.next_guest_id, name⟩) := by simpa using hp
      subst hpe
      simp only []
      omega
  | createBooking gid r ci co b =>
    simp only [execute] at he
    split at he
    · simp at he
    · split at he
      · simp at he
      · split at he
        · simp at he
        · split at he
          · simp at he
          · rename_i hav
            rw [Bool.not_eq_false] at hav
            simp only [Prod.mk.injEq] at he
            obtain ⟨hh1, _, _⟩ := he
            subst hh1
            have hnone := alookup_none_of_lt h.bookings h.next_booking_id hid.2
            rw [okHotel, Bool.and_eq_true]
            constructor
            · show overlapFree (ainsert h.bookings h.next_booking_id _) = true
              rw [ainsert_of_none h.bookings h.next_booking_id _ hnone]
              exact overlapFree_concat h.bookings _ _ hof
                (room_is_available_noConflict h.bookings r ci co _ gid hav)
            · rw [idBound_iff]
              refine ⟨fun p hp => ?_, fun p hp => ?_⟩
              · have := hid.1 p hp
                simp only []
                omega
              · rw [ainsert_of_none h.bookings h.next_booking_id _ hnone] at hp
                rcases List.mem_append.mp hp with hp | hp
                · have := hid.2 p hp
                  simp only []
                  omega
                · have hpe : p = (h.next_booking_id,
                      ⟨h.next_booking_id, gid, r, ci, co, Status.booked⟩) := by simpa using hp
                  subst hpe
                  simp only []
                  omega
  | cancelBooking bid prev =>
    simp only [execute] at he
    split at he
    · simp at he
    · rename_i b hb
      split at he
      · simp at he
      · split at he
        · simp at he
        · simp only [Prod.mk.injEq] at he
          obtain ⟨hh1, _, _⟩ := he
          subst hh1
          rw [okHotel, Bool.and_eq_true]
          constructor
          · exact overlapFree_setStatus_inactive h.bookings bid Status.cancelled rfl hof
          · rw [idBound_iff]
            refine ⟨hid.1, ?_⟩
            exact setStatus_keys_sub h.bookings bid Status.cancelled
              (fun k => k < h.next_booking_id) hid.2
  | checkIn bid prev =>
    simp only [execute] at he
    split at he
    · simp at he
    · rename_i b hb
      split at he
      · simp at he
      · rename_i hst
        rw [not_not] at hst
        simp only [Prod.mk.injEq] at he
        obtain ⟨hh1, _, _⟩ := he
        subst hh1
        rw [okHotel, Bool.and_eq_true]
        constructor
        · refine overlapFree_setStatus_sameActive h.bookings bid Status.checked_in b hb ?_ hof
          rw [hst]
          decide
        · rw [idBound_iff]
          refine ⟨hid.1, ?_⟩
          exact setStatus_keys_sub h.bookings bid Status.checked_in
            (fun k => k < h.next_booking_id) hid.2
  | checkOut bid prev =>
    simp only [execute] at he
    split at he
    · simp at he
    · rename_i b hb
      split at he
      · simp at he
      · simp only [Prod.mk.injEq] at he
        obtain ⟨hh1, _, _⟩ := he
        subst hh1
        rw [okHotel, Bool.and_eq_true]
        constructor
        · exact overlapFree_setStatus_inactive h.bookings bid Status.checked_out rfl hof
        · rw [idBound_iff]
          refine ⟨hid.1, ?_⟩
          exact setStatus_keys_sub h.bookings bid Status.checked_out
            (fun k => k < h.next_booking_id) hid.2

theorem chainGood_ok {ops : List Operation} {h : Hotel} (hc : ChainGood ops h) :
    okHotel h = true := by
  cases hc with
  | nil _ hok => exact hok
  | cons _ _ hok _ => exact hok

theorem chainGood_extend {ops : List Operation} {h : Hotel} (op : Operation)
    (hc : ChainGood ops h) : ChainGood (ops ++ [op]) h := by
  induction hc with
  | nil hh hok => exact ChainGood.nil hh hok
  | cons hh hget hok htail ih =>
    refine ChainGood.cons hh ?_ hok ih
    have hlt := (List.get?_eq_some.mp hget).choose
    rw [List.get?_append hlt]
    exact hget

theorem chainGood_congr {ops : List Operation} {h : Hotel} (hc : ChainGood ops h) :
    ∀ h' : Hotel, h'.rooms = h.rooms → h'.guests = h.guests → h'.bookings = h.bookings →
      h'.history = h.history → h.next_guest_id ≤ h'.next_guest_id →
      h.next_booking_id ≤ h'.next_booking_id → ChainGood ops h' := by
  induction hc with
  | nil hh hok =>
    intro h' hr hg hb hhist hc1 hc2
    refine ChainGood.nil (by rw [hhist, hh]) ?_
    rw [okHotel, Bool.and_eq_true] at hok ⊢
    exact ⟨by rw [hb]; exact hok.1,
      idBound_mono _ h' hg.symm hb.symm hc1 hc2 hok.2⟩
  | cons hh hget hok htail ih =>
    rename_i hG hist i op
    intro h' hr hg hb hhist hc1 hc2
    refine ChainGood.cons (by rw [hhist, hh]) hget ?_ ?_
    · rw [okHotel, Bool.and_eq_true] at hok ⊢
      exact ⟨by rw [hb]; exact hok.1,
        idBound_mono _ h' hg.symm hb.symm hc1 hc2 hok.2⟩
    · have hcong := undo_congr op ({ h' with history := hist })
        ({ hG with history := hist }) hr hg hb
      have hf1 := undo_frame op ({ h' with history := hist })
      have hf2 := undo_frame op ({ hG with history := hist })
      refine ih (undo op { h' with history := hist }) hcong.1 hcong.2.1 hcong.2.2 ?_ ?_ ?_
      · rw [hf1.2.2, hf2.2.2]
      · rw [hf1.1, hf2.1]; exact hc1
      · rw [hf1.2.1, hf2.2.1]; exact hc2

theorem undoLast_chainGood {w w1 : World} (hc : ChainGood w.ops w.hotel)
    (hu : w.undoLast = (w1, none)) : ChainGood w1.ops w1.hotel := by
  cases hc with
  | nil hh hok =>
    simp [World.undoLast, hh, List.getLast?] at hu
  | cons hh hget hok htail =>
    simp only [World.undoLast, hh, List.getLast?_concat, List.dropLast_concat, hget,
      Prod.mk.injEq] at hu
    obtain ⟨hw1, _⟩ := hu
    rw [← hw1]
    exact htail

theorem reachFresh_chainGood {w : World} (hr : ReachFresh w) : ChainGood w.ops w.hotel := by
  induction hr with
  | init => exact ChainGood.nil rfl (by decide)
  | applyNew w w1 op hrw happ ih =>
    rcases hex : execute op w.hotel with ⟨h1, op1, e⟩
    have hget : (w.ops ++ [op]).get? w.ops.length = some op := List.get?_concat_length w.ops op
    simp only [World.applyAt, hget, hex] at happ
    cases e with
    | some err => simp at happ
    | none =>
      rw [list_set_concat] at happ
      simp only [Option.some.injEq, Prod.mk.injEq] at happ
      obtain ⟨hw1, _⟩ := happ
      have hok := chainGood_ok ih
      have hid : idBound w.hotel = true := by
        rw [okHotel, Bool.and_eq_true] at hok; exact hok.2
      have hnc := idBound_noClash w.hotel hid
      have hres := execute_undo_restore op w.hotel h1 op1 hnc hex
      have hok1 := execute_ok op w.hotel h1 op1 hok hex
      have hfr := execute_frame op w.hotel
      rw [hex] at hfr
      rw [← hw1]
      show ChainGood (w.ops ++ [op1]) ({ h1 with history := h1.history ++ [w.ops.length] })
      refine @ChainGood.cons (w.ops ++ [op1]) _ h1.history w.ops.length op1 rfl
        (List.get?_concat_length w.ops op1) hok1 ?_
      show ChainGood (w.ops ++ [op1]) (undo op1 h1)
      rw [hres]
      refine chainGood_congr (chainGood_extend op1 ih) _ rfl rfl rfl ?_ ?_ ?_
      · exact hfr.2.2
      · exact hfr.1
      · exact hfr.2.1
  | undoOk w w1 hrw hu ih => exact undoLast_chainGood ih hu

theorem reachFresh_overlapFree {w : World} (hr : ReachFresh w) :
    overlapFree w.hotel.bookings = true := by
  have hok := chainGood_ok (reachFresh_chainGood hr)
  rw [okHotel, Bool.and_eq_true] at hok
  exact hok.1

theorem reachFresh_idBound {w : World} (hr : ReachFresh w) : idBound w.hotel = true := by
  have hok := chainGood_ok (reachFresh_chainGood hr)
  rw [okHotel, Bool.and_eq_true] at hok
  exact hok.2

theorem alookup_append_of_none {V : Type} (l1 l2 : List (Int × V)) (k : Int)
    (h : alookup l1 k = none) : alookup (l1 ++ l2) k = alookup l2 k := by
  induction l1 with
  | nil => simp
  | cons p rest ih =>
    obtain ⟨k0, v0⟩ := p
    by_cases hk : k0 = k
    · simp [alookup, hk] at h
    · simp only [alookup, if_neg hk] at h
      simp [alookup, hk, ih h]

theorem list_get_set_self {α : Type} (l : List α) (i : Nat) (x : α) (h : i < l.length) :
    (l.set i x).get? i = some x := by
  induction l generalizing i with
  | nil => simp at h
  | cons a rest ih =>
    cases i with
    | zero => rfl
    | succ n => simpa [List.set, List.get?] using ih n (by simpa using h)

theorem applyAt_registerGuest (w : World) (i : Nat) (name : String) (g0 : Option Int)
    (hop : w.ops.get? i = some (.registerGuest name g0)) :
    w.applyAt i = some (⟨{ w.hotel with
        guests := ainsert w.hotel.guests w.hotel.next_guest_id ⟨w.hotel.next_guest_id, name⟩,
        next_guest_id := w.hotel.next_guest_id + 1,
        history := w.hotel.history ++ [i] },
      w.ops.set i (.registerGuest name (some w.hotel.next_guest_id))⟩, none) := by
  simp only [World.applyAt]
  rw [hop]
  rfl

theorem undoLast_eq (w : World) (hist : List Nat) (i : Nat) (op : Operation)
    (hh : w.hotel.history = hist ++ [i]) (hop : w.ops.get? i = some op) :
    w.undoLast = (⟨undo op { w.hotel with history := hist }, w.ops⟩, none) := by
  simp only [World.undoLast, hh, List.getLast?_concat, List.dropLast_concat]
  rw [hop]

theorem undoLast_empty (w : World) (hh : w.hotel.history = []) :
    w.undoLast = (w, some Err.EmptyHistory) := by
  simp [World.undoLast, hh, List.getLast?]

theorem stepAct_applyAt_eq (w : World) (i : Nat) (w1 : World)
    (h : w.applyAt i = some (w1, none)) : w.stepAct (Act.applyAt i) = (w1, true) := by
  simp [World.stepAct, h]

theorem stepAct_undoLast_eq (w : World) (w1 : World)
    (h : w.undoLast = (w1, none)) : w.stepAct Act.undoLast = (w1, true) := by
  simp [World.stepAct, h]

theorem runActs_cons_true (w : World) (a : Act) (w1 : World) (rest : List Act)
    (h : w.stepAct a = (w1, true)) : runActs w (a :: rest) = runActs w1 rest := by
  simp [runActs, h]

theorem runActs_nil (w : World) : runActs w [] = (w, true) := rfl

theorem stepAct_reachAny (w : World) (a : Act) (hr : ReachAny w)
    (hs : (w.stepAct a).2 = true) : ReachAny (w.stepAct a).1 := by
  cases a with
  | newOp op => exact ReachAny.newOp w op hr
  | applyAt i =>
    cases happ : w.applyAt i with
    | none => simpa [World.stepAct, happ] using hr
    | some r =>
      obtain ⟨w1, e⟩ := r
      cases e with
      | none =>
        simp only [World.stepAct, happ]
        exact ReachAny.applyOk w w1 i hr happ
      | some err => simp [World.stepAct, happ] at hs
  | undoLast =>
    rcases hu : w.undoLast with ⟨w1, e⟩
    cases e with
    | none =>
      simp only [World.stepAct, hu]
      exact ReachAny.undoOk w w1 hr hu
    | some err => simp [World.stepAct, hu] at hs

theorem runActs_reachAny (acts : List Act) (w : World) (hr : ReachAny w)
    (hs : (runActs w acts).2 = true) : ReachAny (runActs w acts).1 := by
  induction acts generalizing w with
  | nil => simpa [runActs] using hr
  | cons a rest ih =>
    simp only [runActs, Bool.and_eq_true] at hs ⊢
    exact ih (w.stepAct a).1 (stepAct_reachAny w a hr hs.1) hs.2

/-- C2: if `execute` raises, `apply` leaves every part of the aggregate —
rooms, guests, bookings, both id counters and the history — exactly as it
was, and the operation is not appended to history (the whole world is
unchanged). -/
theorem claim_C2 (w : World) (i : Nat) (w1 : World) (e : Err)
    (happ : w.applyAt i = some (w1, some e)) : w1 = w := by
  cases hop : w.ops.get? i with
  | none => rw [World.applyAt, hop] at happ; simp at happ
  | some op =>
    rcases hex : execute op w.hotel with ⟨h1, op1, e'⟩
    simp only [World.applyAt, hop, hex] at happ
    cases e' with
    | none => simp at happ
    | some e0 =>
      simp only [Option.some.injEq, Prod.mk.injEq] at happ
      obtain ⟨hw1, _⟩ := happ
      obtain ⟨hh, hop1⟩ := execute_error op w.hotel h1 op1 e0 hex
      rw [← hw1, hh, hop1, list_set_self w.ops i op hop]

/-- C2 witness: creating a booking for an unknown guest on a fresh hotel
fails with UnknownGuest and changes nothing. -/
theorem claim_C2_witness :
    (World.applyAt failWorld 0 = some (failWorld, some Err.UnknownGuest)) ∧
      failWorld = failWorld :=
  ⟨by decide, claim_C2 failWorld 0 failWorld Err.UnknownGuest (by decide)⟩

/-- C3: a room is reported available iff no booking for that room whose
status is neither cancelled nor checked_out overlaps the proposed half-open
range; sharing only a boundary date is not a conflict and a cancelled
booking never blocks. -/
theorem claim_C3 :
    (∀ (l : List (Int × Booking)) (r ci co : Int),
        room_is_available l r ci co = true ↔
          ∀ p ∈ l, p.2.room_number = r →
            ¬ (p.2.status = Status.cancelled ∨ p.2.status = Status.checked_out) →
            ¬ (ci < p.2.check_out_date ∧ p.2.check_in_date < co)) ∧
      dates_overlap 25 28 28 30 = false ∧
      dates_overlap 27 29 25 28 = true ∧
      (∀ (k : Int) (b : Booking), b.status = Status.cancelled →
        room_is_available [(k, b)] b.room_number b.check_in_date b.check_out_date = true) := by
  refine ⟨room_is_available_iff, by decide, by decide, fun k b hb => ?_⟩
  rw [room_is_available_iff]
  intro p hp _ hst
  have hpe : p = (k, b) := by simpa using hp
  subst hpe
  exact absurd (Or.inl hb) hst

/-- C3 witness: a cancelled booking does not block its own date range. -/
theorem claim_C3_witness :
    room_is_available [((7 : Int), ⟨1, 1, 101, 25, 28, Status.cancelled⟩)] 101 25 28 = true :=
  claim_C3.2.2.2 7 ⟨1, 1, 101, 25, 28, Status.cancelled⟩ rfl

/-- C5: CheckIn fails with InvalidTransition off status booked, CheckOut
fails with InvalidTransition off status checked_in, CancelBooking fails
with AlreadyCancelled on cancelled and AlreadyCheckedOut on checked_out;
every failing case leaves the hotel (and so the booking) unchanged. -/
theorem claim_C5 (h : Hotel) (bid : Int) (b : Booking) (prev : Option Status)
    (hb : alookup h.bookings bid = some b) :
    (b.status ≠ Status.booked →
      execute (.checkIn bid prev) h = (h, .checkIn bid prev, some .InvalidTransition)) ∧
    (b.status ≠ Status.checked_in →
      execute (.checkOut bid prev) h = (h, .checkOut bid prev, some .InvalidTransition)) ∧
    (b.status = Status.cancelled →
      execute (.cancelBooking bid prev) h = (h, .cancelBooking bid prev, some .AlreadyCancelled)) ∧
    (b.status = Status.checked_out →
      execute (.cancelBooking bid prev) h
        = (h, .cancelBooking bid prev, some .AlreadyCheckedOut)) := by
  refine ⟨fun hst => ?_, fun hst => ?_, fun hst => ?_, fun hst => ?_⟩
  · simp [execute, hb, hst]
  · simp [execute, hb, hst]
  · simp [execute, hb, hst]
  · simp [execute, hb, hst]

/-- C5 witness: CheckIn on a checked-out booking fails with
InvalidTransition and leaves the hotel unchanged. -/
theorem claim_C5_witness :
    execute (.checkIn 1 none) checkedOutHotel
      = (checkedOutHotel, .checkIn 1 none, some Err.InvalidTransition) :=
  (claim_C5 checkedOutHotel 1 ⟨1, 1, 101, 25, 28, Status.checked_out⟩ none (by decide)).1
    (by decide)

/-- C7: CreateBooking.execute checks guest, then room, then date order,
then availability, failing with UnknownGuest / UnknownRoom /
InvalidDateRange / RoomUnavailable respectively; on success it inserts a
booked Booking under the next booking id, increments the counter, and
records the assigned id on the instance. -/
theorem claim_C7 (gid r ci co : Int) (b0 : Option Int) (h : Hotel) :
    (acontains h.guests gid = false →
      execute (.createBooking gid r ci co b0) h
        = (h, .createBooking gid r ci co b0, some .UnknownGuest)) ∧
    (acontains h.guests gid = true → acontains h.rooms r = false →
      execute (.createBooking gid r ci co b0) h
        = (h, .createBooking gid r ci co b0, some .UnknownRoom)) ∧
    (acontains h.guests gid = true → acontains h.rooms r = true → ci ≥ co →
      execute (.createBooking gid r ci co b0) h
        = (h, .createBooking gid r ci co b0, some .InvalidDateRange)) ∧
    (acontains h.guests gid = true → acontains h.rooms r = true → ci < co →
      room_is_available h.bookings r ci co = false →
      execute (.createBooking gid r ci co b0) h
        = (h, .createBooking gid r ci co b0, some .RoomUnavailable)) ∧
    (acontains h.guests gid = true → acontains h.rooms r = true → ci < co →
      room_is_available h.bookings r ci co = true →
      execute (.createBooking gid r ci co b0) h
        = ({ h with bookings := ainsert h.bookings h.next_booking_id (Booking.mk h.next_booking_id gid r ci co Status.booked), next_booking_id := h.next_booking_id + 1 }, .createBooking gid r ci co (some h.next_booking_id), none)) := by
  refine ⟨fun h1 => ?_, fun h1 h2 => ?_, fun h1 h2 h3 => ?_, fun h1 h2 h3 h4 => ?_,
    fun h1 h2 h3 h4 => ?_⟩
  · simp [execute, h1]
  · simp [execute, h1, h2]
  · simp [execute, h1, h2, h3]
  · simp [execute, h1, h2, not_le.mpr h3, h4]
  · simp [execute, h1, h2, not_le.mpr h3, h4]

/-- C7 witness: on a hotel with guest 1 and room 101, the booking succeeds,
is stored under id 1 with status booked, and the id is recorded. -/
theorem claim_C7_witness :
    execute (.createBooking 1 101 25 28 none)
        (⟨[(101, ⟨101, 2, 3500⟩)], [(1, ⟨1, "g"⟩)], [], 2, 1, []⟩ : Hotel)
      = (⟨[(101, ⟨101, 2, 3500⟩)], [(1, ⟨1, "g"⟩)],
          [(1, ⟨1, 1, 101, 25, 28, Status.booked⟩)], 2, 2, []⟩,
          .createBooking 1 101 25 28 (some 1), none) :=
  (claim_C7 1 101 25 28 none ⟨[(101, ⟨101, 2, 3500⟩)], [(1, ⟨1, "g"⟩)], [], 2, 1, []⟩).2.2.2.2
    (by decide) (by decide) (by decide) (by decide)

/-- C8: undo_last on an empty history fails with EmptyHistory and leaves
the world unchanged; otherwise it removes exactly the most recent history
entry and runs that instance's undo on the aggregate. -/
theorem claim_C8 :
    (∀ w : World, w.hotel.history = [] → w.undoLast = (w, some Err.EmptyHistory)) ∧
      (∀ (w : World) (hist : List Nat) (i : Nat) (op : Operation),
        w.hotel.history = hist ++ [i] → w.ops.get? i = some op →
        w.undoLast = (⟨undo op { w.hotel with history := hist }, w.ops⟩, none)) :=
  ⟨undoLast_empty, undoLast_eq⟩

/-- C8 witness: a fresh hotel fails with EmptyHistory; a world with one
applied operation pops it and runs its undo. -/
theorem claim_C8_witness :
    (World.undoLast ⟨Hotel.new, []⟩ = (⟨Hotel.new, []⟩, some Err.EmptyHistory)) ∧
      World.undoLast histWorld
        = (⟨undo (RegisterGuest.new "a") { histWorld.hotel with history := [] },
            histWorld.ops⟩, none) :=
  ⟨claim_C8.1 ⟨Hotel.new, []⟩ rfl, claim_C8.2 histWorld [] 0 (RegisterGuest.new "a") rfl rfl⟩

/-- C10: AddRoom.execute checks only for a duplicate room number; any
capacity and price_per_night, zero or negative included, are accepted and
stored verbatim. -/
theorem claim_C10 (n c p : Int) (a : Bool) (h : Hotel) :
    (acontains h.rooms n = true →
      execute (.addRoom n c p a) h = (h, .addRoom n c p a, some .DuplicateRoom)) ∧
    (acontains h.rooms n = false →
      execute (.addRoom n c p a) h
        = ({ h with rooms := ainsert h.rooms n ⟨n, c, p⟩ }, .addRoom n c p true, none)) := by
  constructor <;> intro hc <;> simp [execute, hc]

/-- C10 witness: a room with zero capacity and negative price is accepted
on a fresh hotel. -/
theorem claim_C10_witness :
    execute (.addRoom 101 0 (-5) false) Hotel.new
      = ({ Hotel.new with rooms := ainsert Hotel.new.rooms 101 ⟨101, 0, -5⟩ },
          .addRoom 101 0 (-5) true, none) :=
  (claim_C10 101 0 (-5) false Hotel.new).2 (by decide)

/-- C1 counterexample: on `clashHotel` a fresh RegisterGuest executes
successfully (overwriting guest 1), but undo_last then deletes the key
outright, so the guests collection is not restored. -/
theorem claim_C1_counterexample :
    isFreshOp (RegisterGuest.new "bob") = true ∧
      World.applyAt ⟨clashHotel, [RegisterGuest.new "bob"]⟩ 0
        = some (⟨⟨[], [(1, ⟨1, "bob"⟩)], [], 2, 1, [0]⟩,
            [.registerGuest "bob" (some 1)]⟩, none) ∧
      (World.undoLast ⟨⟨[], [(1, ⟨1, "bob"⟩)], [], 2, 1, [0]⟩,
          [.registerGuest "bob" (some 1)]⟩).2 = none ∧
      (World.undoLast ⟨⟨[], [(1, ⟨1, "bob"⟩)], [], 2, 1, [0]⟩,
          [.registerGuest "bob" (some 1)]⟩).1.hotel.obs ≠ clashHotel.obs := by
  decide

/-- C1 (amended): provided no existing guest key equals the guest counter
and no existing booking key equals the booking counter (true of every state
the aggregate actually reaches), applying a freshly constructed operation
successfully and then calling undo_last restores the rooms, guests and
bookings collections and the history exactly — including fields the
operation did not own, such as a status restored to checked_in. -/
theorem claim_C1 (w : World) (op : Operation) (w1 : World)
    (hfresh : isFreshOp op = true) (hnc : noClash w.hotel = true)
    (happ : World.applyAt ⟨w.hotel, w.ops ++ [op]⟩ w.ops.length = some (w1, none)) :
    (w1.undoLast).2 = none ∧ (w1.undoLast).1.hotel.obs = w.hotel.obs := by
  rcases hex : execute op w.hotel with ⟨h1, op1, e⟩
  have hget : (w.ops ++ [op]).get? w.ops.length = some op := List.get?_concat_length w.ops op
  simp only [World.applyAt, hget, hex] at happ
  cases e with
  | some err => simp at happ
  | none =>
    rw [list_set_concat] at happ
    simp only [Option.some.injEq, Prod.mk.injEq] at happ
    obtain ⟨hw1, _⟩ := happ
    have hres := execute_undo_restore op w.hotel h1 op1 hnc hex
    have hfr := execute_frame op w.hotel
    rw [hex] at hfr
    have hh1 : h1.history = w.hotel.history := hfr.2.2
    subst hw1
    have hu := undoLast_eq
      ⟨{ h1 with history := h1.history ++ [w.ops.length] }, w.ops ++ [op1]⟩
      h1.history w.ops.length op1 rfl (List.get?_concat_length w.ops op1)
    rw [hu]
    constructor
    · rfl
    · show (undo op1 h1).obs = w.hotel.obs
      rw [hres]
      simp [Hotel.obs, hh1]

/-- C1 witness: register a guest on a fresh hotel, apply, undo: the
observable aggregate state returns to that of the fresh hotel. -/
theorem claim_C1_witness :
    (World.undoLast ⟨⟨[], [(1, ⟨1, "a"⟩)], [], 2, 1, [0]⟩,
        [.registerGuest "a" (some 1)]⟩).2 = none ∧
      (World.undoLast ⟨⟨[], [(1, ⟨1, "a"⟩)], [], 2, 1, [0]⟩,
          [.registerGuest "a" (some 1)]⟩).1.hotel.obs
        = (⟨Hotel.new, []⟩ : World).hotel.obs :=
  claim_C1 ⟨Hotel.new, []⟩ (RegisterGuest.new "a")
    ⟨⟨[], [(1, ⟨1, "a"⟩)], [], 2, 1, [0]⟩, [.registerGuest "a" (some 1)]⟩
    (by decide) (by decide) (by decide)

/-- C4 counterexample: a world reachable by successful apply and undo_last
calls alone (with operation-instance reuse) whose bookings violate the
no-overlap invariant: bookings 1 and 2 end up both booked for room 101 over
the same dates. -/
theorem claim_C4_counterexample :
    ReachAny (runActs ⟨Hotel.new, []⟩ reuseTrace).1 ∧
      overlapFree (runActs ⟨Hotel.new, []⟩ reuseTrace).1.hotel.bookings = false :=
  ⟨runActs_reachAny reuseTrace ⟨Hotel.new, []⟩ ReachAny.init (by decide), by decide⟩

/-- C4 (amended): in every world reachable by successful apply and
undo_last calls in which each applied operation instance is freshly
constructed (no instance applied twice), no two active bookings for the
same room overlap. -/
theorem claim_C4 (w : World) (hr : ReachFresh w) : overlapFree w.hotel.bookings = true :=
  reachFresh_overlapFree hr

/-- C4 witness: the initial world is fresh-reachable and overlap-free. -/
theorem claim_C4_witness : overlapFree (⟨Hotel.new, []⟩ : World).hotel.bookings = true :=
  claim_C4 ⟨Hotel.new, []⟩ ReachFresh.init

/-- C6: both id counters are non-decreasing across every apply (successful
or failed) and every undo_last; assigned ids always come from the counter
at assignment time, which is then incremented; and in the concrete
scenario register/undo/register the second guest receives id 2, not 1. -/
theorem claim_C6 :
    (∀ (w : World) (i : Nat) (w1 : World) (e : Option Err), w.applyAt i = some (w1, e) →
        w.hotel.next_guest_id ≤ w1.hotel.next_guest_id ∧
          w.hotel.next_booking_id ≤ w1.hotel.next_booking_id) ∧
      (∀ w : World, w.hotel.next_guest_id ≤ (w.undoLast).1.hotel.next_guest_id ∧
          w.hotel.next_booking_id ≤ (w.undoLast).1.hotel.next_booking_id) ∧
      (∀ (name : String) (g0 : Option Int) (h : Hotel),
        (execute (.registerGuest name g0) h).2.1 = .registerGuest name (some h.next_guest_id) ∧
          (execute (.registerGuest name g0) h).1.next_guest_id = h.next_guest_id + 1) ∧
      (∀ (gid r ci co : Int) (b0 : Option Int) (h h1 : Hotel) (op1 : Operation),
        execute (.createBooking gid r ci co b0) h = (h1, op1, none) →
          op1 = .createBooking gid r ci co (some h.next_booking_id) ∧
            h1.next_booking_id = h.next_booking_id + 1) ∧
      ((runActs ⟨Hotel.new, []⟩ regScenario).2 = true ∧
        (runActs ⟨Hotel.new, []⟩ regScenario).1.ops
          = [.registerGuest "a" (some 1), .registerGuest "b" (some 2)] ∧
        (runActs ⟨Hotel.new, []⟩ regScenario).1.hotel.guests = [(2, ⟨2, "b"⟩)]) := by
  refine ⟨?_, ?_, fun name g0 h => ⟨rfl, rfl⟩, ?_, by decide⟩
  · intro w i w1 e happ
    cases hop : w.ops.get? i with
    | none => rw [World.applyAt, hop] at happ; simp at happ
    | some op =>
      rcases hex : execute op w.hotel with ⟨h1, op1, e'⟩
      have hfr := execute_frame op w.hotel
      rw [hex] at hfr
      simp only [World.applyAt, hop, hex] at happ
      cases e' with
      | some e0 =>
        simp only [Option.some.injEq, Prod.mk.injEq] at happ
        obtain ⟨hw1, _⟩ := happ
        rw [← hw1]
        exact ⟨hfr.1, hfr.2.1⟩
      | none =>
        simp only [Option.some.injEq, Prod.mk.injEq] at happ
        obtain ⟨hw1, _⟩ := happ
        rw [← hw1]
        exact ⟨hfr.1, hfr.2.1⟩
  · intro w
    rcases hg : w.hotel.history.getLast? with _ | i
    · simp [World.undoLast, hg]
    · cases hop : w.ops.get? i with
      | none =>
        simp only [World.undoLast, hg, hop]
        exact ⟨le_refl _, le_refl _⟩
      | some op =>
        have hf := undo_frame op ({ w.hotel with history := w.hotel.history.dropLast })
        simp only [World.undoLast, hg, hop]
        exact ⟨le_of_eq hf.1.symm, le_of_eq hf.2.1.symm⟩
  · intro gid r ci co b0 h h1 op1 he
    simp only [execute] at he
    split at he
    · simp at he
    · split at he
      · simp at he
      · split at he
        · simp at he
        · split at he
          · simp at he
          · simp only [Prod.mk.injEq] at he
            exact ⟨he.2.1.symm, by rw [← he.1]⟩

/-- C6 witness: one successful apply of a RegisterGuest does not decrease
either counter. -/
theorem claim_C6_witness :
    (⟨Hotel.new, [RegisterGuest.new "a"]⟩ : World).hotel.next_guest_id
        ≤ (⟨⟨[], [(1, ⟨1, "a"⟩)], [], 2, 1, [0]⟩,
            [.registerGuest "a" (some 1)]⟩ : World).hotel.next_guest_id ∧
      (⟨Hotel.new, [RegisterGuest.new "a"]⟩ : World).hotel.next_booking_id
        ≤ (⟨⟨[], [(1, ⟨1, "a"⟩)], [], 2, 1, [0]⟩,
            [.registerGuest "a" (some 1)]⟩ : World).hotel.next_booking_id :=
  claim_C6.1 ⟨Hotel.new, [RegisterGuest.new "a"]⟩ 0
    ⟨⟨[], [(1, ⟨1, "a"⟩)], [], 2, 1, [0]⟩, [.registerGuest "a" (some 1)]⟩ none (by decide)

/-- C9: applying one and the same RegisterGuest instance twice in a row
inserts two distinct guests under distinct ids, but the instance's cached
guest_id is overwritten by the second execute; two subsequent undo_last
calls therefore remove only the second guest (the second undo is a no-op)
and the first guest survives, with the history fully unwound. -/
theorem claim_C9 (w : World) (i : Nat) (name : String) (g0 : Option Int)
    (hop : w.ops.get? i = some (.registerGuest name g0))
    (hg1 : alookup w.hotel.guests w.hotel.next_guest_id = none)
    (hg2 : alookup w.hotel.guests (w.hotel.next_guest_id + 1) = none) :
    (runActs w [Act.applyAt i, Act.applyAt i]).1.hotel.guests
        = w.hotel.guests ++ [(w.hotel.next_guest_id, ⟨w.hotel.next_guest_id, name⟩),
            (w.hotel.next_guest_id + 1, ⟨w.hotel.next_guest_id + 1, name⟩)] ∧
      (runActs w [Act.applyAt i, Act.applyAt i]).1.ops.get? i
        = some (.registerGuest name (some (w.hotel.next_guest_id + 1))) ∧
      (runActs w [Act.applyAt i, Act.applyAt i, Act.undoLast, Act.undoLast]).2 = true ∧
      (runActs w [Act.applyAt i, Act.applyAt i, Act.undoLast, Act.undoLast]).1.hotel.guests
        = w.hotel.guests ++ [(w.hotel.next_guest_id, ⟨w.hotel.next_guest_id, name⟩)] ∧
      (runActs w [Act.applyAt i, Act.applyAt i, Act.undoLast, Act.undoLast]).1.hotel.history
        = w.hotel.history := by
  obtain ⟨⟨rms, gsts, bks, ng, nb, hist⟩, ops⟩ := w
  simp only at hop hg1 hg2 ⊢
  have hilt : i < ops.length := (List.get?_eq_some.mp hop).choose
  have hop1 : (ops.set i (Operation.registerGuest name (some ng))).get? i
      = some (Operation.registerGuest name (some ng)) :=
    list_get_set_self _ _ _ (by simpa using hilt)
  have hop2 : ((ops.set i (Operation.registerGuest name (some ng))).set i
          (Operation.registerGuest name (some (ng + 1)))).get? i
      = some (Operation.registerGuest name (some (ng + 1))) :=
    list_get_set_self _ _ _ (by simpa using hilt)
  have hins1 : ainsert gsts ng ⟨ng, name⟩ = gsts ++ [(ng, ⟨ng, name⟩)] :=
    ainsert_of_none _ _ _ hg1
  have hl2 : alookup (gsts ++ [(ng, ⟨ng, name⟩)]) (ng + 1) = none := by
    rw [alookup_append_of_none _ _ _ hg2]
    simp only [alookup, if_neg (by omega : ¬ ng = ng + 1)]
  have hins2 : ainsert (gsts ++ [(ng, ⟨ng, name⟩)]) (ng + 1) ⟨ng + 1, name⟩
      = (gsts ++ [(ng, ⟨ng, name⟩)]) ++ [(ng + 1, ⟨ng + 1, name⟩)] :=
    ainsert_of_none _ _ _ hl2
  have hco : acontains ((gsts ++ [(ng, ⟨ng, name⟩)]) ++ [(ng + 1, ⟨ng + 1, name⟩)]) (ng + 1)
      = true := by
    rw [acontains, alookup_append_of_none _ _ _ hl2]
    simp [alookup]
  have hnc2 : acontains (gsts ++ [(ng, ⟨ng, name⟩)]) (ng + 1) = false := by
    rw [acontains, hl2]
    rfl
  have her2 : aerase ((gsts ++ [(ng, ⟨ng, name⟩)]) ++ [(ng + 1, ⟨ng + 1, name⟩)]) (ng + 1)
      = gsts ++ [(ng, ⟨ng, name⟩)] := aerase_concat_of_none _ _ _ hl2
  rw [List.append_assoc, List.singleton_append] at hco her2
  have hop2b : (ops.set i (Operation.registerGuest name (some (ng + 1)))).get? i
      = some (Operation.registerGuest name (some (ng + 1))) :=
    list_get_set_self _ _ _ (by simpa using hilt)
  rw [List.get?_eq_getElem?] at hop hop1 hop2 hop2b
  refine ⟨?_, ?_, ?_, ?_, ?_⟩ <;>
    simp [runActs, World.stepAct, World.applyAt, World.undoLast, execute, undo,
      hop, hop1, hop2, hins1, hins2, List.getLast?_concat, List.dropLast_concat,
      hco, hnc2, her2, List.set_set, hop2b]

/-- C9 witness: one RegisterGuest instance applied twice on a fresh hotel
inserts guests 1 and 2; two undos remove only guest 2. -/
theorem claim_C9_witness :
    (runActs ⟨Hotel.new, [RegisterGuest.new "x"]⟩ [Act.applyAt 0, Act.applyAt 0]).1.hotel.guests
        = [(1, ⟨1, "x"⟩), (2, ⟨2, "x"⟩)] ∧
      (runActs ⟨Hotel.new, [RegisterGuest.new "x"]⟩ [Act.applyAt 0, Act.applyAt 0]).1.ops.get? 0
        = some (.registerGuest "x" (some 2)) ∧
      (runActs ⟨Hotel.new, [RegisterGuest.new "x"]⟩
          [Act.applyAt 0, Act.applyAt 0, Act.undoLast, Act.undoLast]).2 = true ∧
      (runActs ⟨Hotel.new, [RegisterGuest.new "x"]⟩
          [Act.applyAt 0, Act.applyAt 0, Act.undoLast, Act.undoLast]).1.hotel.guests
        = [(1, ⟨1, "x"⟩)] ∧
      (runActs ⟨Hotel.new, [RegisterGuest.new "x"]⟩
          [Act.applyAt 0, Act.applyAt 0, Act.undoLast, Act.undoLast]).1.hotel.history = [] := by
  simpa using claim_C9 ⟨Hotel.new, [RegisterGuest.new "x"]⟩ 0 "x" none rfl rfl rfl

end HotelSpec
